import Mathlib

/-!
Verification of the Jolly card-game rules engine.

The definitions below are a shallow embedding of the JavaScript sources:
- `src/unnamed/part_002` (`Card`, `Deck`),
- `src/unnamed/part_001` (the effective `config.js`: `CONFIG`,
  `getCardPointValue`, `getMeldPointValue`),
- `src/js/rules.js` (class `GameRules`, first variant, lines 1-324),
- `src/js/ai.js` (class `AIPlayer`, first variant, lines 1-257).

JavaScript arrays become `List`, the `used` id-`Set` becomes a `List Nat`
(only membership is ever queried, so list semantics coincide), numbers are
`Nat` except where the source can compute a negative intermediate (the gap
computation in `isValidSequenceWithAceValue`), where `Int` is used.
A card's `id` string (`"suit-rank"`, or `"JOKER-random"` with a fresh random
suffix per joker) is modelled as an opaque `Nat` identity key.
-/

namespace Jolly

/-- Suit of a card, from `SUITS` in the config. -/
inductive Suit where
  | hearts | diamonds | clubs | spades
deriving DecidableEq

/-- Rank of a card, from `RANKS` in the config. -/
inductive Rank where
  | A | r2 | r3 | r4 | r5 | r6 | r7 | r8 | r9 | r10 | J | Q | K
deriving DecidableEq

/-- A card (`Card` in `src/unnamed/part_002`).  For a joker the source stores
`suit = null`, `rank = null`; no code path ever reads the suit or rank of a
card whose `isJoker` flag is set, so the two fields are kept plain here and
are simply never consulted for jokers. -/
structure Card where
  suit : Suit
  rank : Rank
  isJoker : Bool
  id : Nat
deriving DecidableEq

/-- Numeric rank value, the `value` getter of `Card`:
joker 0, A 1, J 11, Q 12, K 13, pips their face value. -/
def Card.value (c : Card) : Nat :=
  if c.isJoker then 0
  else match c.rank with
  | .A => 1 | .r2 => 2 | .r3 => 3 | .r4 => 4 | .r5 => 5 | .r6 => 6 | .r7 => 7
  | .r8 => 8 | .r9 => 9 | .r10 => 10 | .J => 11 | .Q => 12 | .K => 13

/-- Constant `CONFIG.MIN_SET_SIZE` from the config. -/
def MIN_SET_SIZE : Nat := 3

/-- Constant `CONFIG.MIN_SEQUENCE_SIZE` from the config. -/
def MIN_SEQUENCE_SIZE : Nat := 3

/-- Constant `CONFIG.FIRST_MELD_MIN_POINTS` from the config. -/
def FIRST_MELD_MIN_POINTS : Nat := 30

/-- Constant `CONFIG.THREE_ACES_POINTS` from the config. -/
def THREE_ACES_POINTS : Nat := 25

/-- Function `getCardPointValue` from the config: hand/penalty scoring.
Joker 50, then 10/J/Q/K give 10, Ace 25, everything else (2-9) 5. -/
def getCardPointValue (card : Card) : Nat :=
  if card.isJoker then 50
  else if [Rank.r10, Rank.J, Rank.Q, Rank.K].contains card.rank then 10
  else if card.rank == Rank.A then 25
  else 5

/-- Function `getMeldPointValue` from the config: first-meld scoring.
Joker 0 (handled separately by the caller), 10/J/Q/K give 10,
Ace 10 when high else 5, everything else (2-9) 5. -/
def getMeldPointValue (card : Card) (isHighAce : Bool) : Nat :=
  if card.isJoker then 0
  else if [Rank.r10, Rank.J, Rank.Q, Rank.K].contains card.rank then 10
  else if card.rank == Rank.A then (if isHighAce then 10 else 5)
  else 5

/-- Kind of a meld, the `type` field of the meld objects built in
`GameRules.findMelds`. -/
inductive MeldType where
  | set | sequence
deriving DecidableEq

/-- A meld as built by `GameRules.findMelds`.  Set melds carry no `pure`
field in the source (reading it yields `undefined`, which is falsy), so
`pure` is `false` for sets here. -/
structure Meld where
  type : MeldType
  cards : List Card
  pure : Bool
deriving DecidableEq

/-- Source `GameRules.isValidSet` (rules.js lines 9-25): at least
`MIN_SET_SIZE` cards, at least one non-joker, and all non-jokers share the
rank of the first non-joker.  The source has no upper size bound. -/
def isValidSet (cards : List Card) : Bool :=
  if cards.length < MIN_SET_SIZE then false
  else
    match cards.filter (fun c => !c.isJoker) with
    | [] => false
    | c0 :: rest => (c0 :: rest).all (fun c => c.rank == c0.rank)

/-- Adjacent-duplicate scan of `isValidSequenceWithAceValue`
(rules.js lines 83-87): true iff some `sortedValues[i] === sortedValues[i+1]`. -/
def hasAdjacentDup : List Nat → Bool
  | a :: b :: rest => a == b || hasAdjacentDup (b :: rest)
  | _ => false

/-- Gap accumulation of `isValidSequenceWithAceValue` (rules.js lines
90-96): `jokersNeeded` sums every positive `values[i+1] - values[i] - 1`.
Computed in `Int` because the source works on JavaScript numbers where the
intermediate difference may be negative. -/
def jokersNeededOf : List Nat → Int
  | a :: b :: rest =>
    (if (0 : Int) < (b : Int) - (a : Int) - 1 then (b : Int) - (a : Int) - 1 else 0)
      + jokersNeededOf (b :: rest)
  | _ => 0

/-- Source `GameRules.isValidSequenceWithAceValue` (rules.js lines 72-99):
map each non-joker to its value with Aces replaced by `aceValue`, sort
ascending (`[...values].sort((a, b) => a - b)`; a sorted permutation of a
list of numbers is unique, so insertion sort models the JavaScript sort
exactly), reject adjacent duplicates, and require the jokers to cover the
summed gaps. -/
def isValidSequenceWithAceValue (nonJokers : List Card) (jokerCount : Nat)
    (aceValue : Nat) : Bool :=
  let values := nonJokers.map (fun c => if c.rank == Rank.A then aceValue else c.value)
  let sortedValues := values.insertionSort (· ≤ ·)
  if hasAdjacentDup sortedValues then false
  else decide (jokersNeededOf sortedValues ≤ (jokerCount : Int))

/-- Source `GameRules.isValidSequence` (rules.js lines 33-63): size floor, at
least one non-joker, all non-jokers on the first non-joker's suit, then the
ace-low (1) or ace-high (14) interpretation must succeed. -/
def isValidSequence (cards : List Card) : Bool :=
  if cards.length < MIN_SEQUENCE_SIZE then false
  else
    let jokers := cards.filter (fun c => c.isJoker)
    match cards.filter (fun c => !c.isJoker) with
    | [] => false
    | c0 :: rest =>
      if !((c0 :: rest).all (fun c => c.suit == c0.suit)) then false
      else
        isValidSequenceWithAceValue (c0 :: rest) jokers.length 1
          || isValidSequenceWithAceValue (c0 :: rest) jokers.length 14

/-- Source `GameRules.isHighAceSequence` (rules.js lines 104-112): the non-jokers
contain an Ace and a King but no 2. -/
def isHighAceSequence (cards : List Card) : Bool :=
  let nonJokers := cards.filter (fun c => !c.isJoker)
  nonJokers.any (fun c => c.rank == Rank.A)
    && nonJokers.any (fun c => c.rank == Rank.K)
    && !(nonJokers.any (fun c => c.rank == Rank.r2))

/-- Source `GameRules.isPureSequence` (rules.js lines 117-122). -/
def isPureSequence (cards : List Card) : Bool :=
  if cards.any (fun c => c.isJoker) then false
  else isValidSequence cards

/-- Source `GameRules.estimateJokerValue` (rules.js lines 155-162): 5 when the meld
has no non-joker, else `Math.round` of the mean meld value of the
non-jokers.  For a nonnegative rational `t/n`, `Math.round (t/n)` equals
`⌊(2t+n)/(2n)⌋`, i.e. `(2*t+n)/(2*n)` in truncated `Nat` division. -/
def estimateJokerValue (meld : Meld) : Nat :=
  match meld.cards.filter (fun c => !c.isJoker) with
  | [] => 5
  | c0 :: rest =>
    let nonJokers := c0 :: rest
    let isHighAce := meld.type == MeldType.sequence && isHighAceSequence meld.cards
    let total := nonJokers.foldl (fun sum c => sum + getMeldPointValue c isHighAce) 0
    (2 * total + nonJokers.length) / (2 * nonJokers.length)

/-- Source `GameRules.calculateMeldPoints` (rules.js lines 127-150): flat
`THREE_ACES_POINTS` for a set whose non-jokers are exactly three Aces,
otherwise sum each card's meld value, jokers contributing
`estimateJokerValue`.  Note the source's three-aces test looks only at the
non-joker cards; it does not exclude jokers from the meld. -/
def calculateMeldPoints (meld : Meld) : Nat :=
  let isHighAce := meld.type == MeldType.sequence && isHighAceSequence meld.cards
  let nonJokers := meld.cards.filter (fun c => !c.isJoker)
  let isThreeAcesSet := meld.type == MeldType.set
    && nonJokers.all (fun c => c.rank == Rank.A)
    && nonJokers.length == MIN_SET_SIZE
  if isThreeAcesSet then THREE_ACES_POINTS
  else
    meld.cards.foldl
      (fun points card =>
        points + (if card.isJoker then estimateJokerValue meld
                  else getMeldPointValue card isHighAce)) 0

/-- Source `GameRules.calculateTotalMeldPoints` (rules.js lines 167-169); the same
reduce appears inline in `AIPlayer.findMeldsToLay`. -/
def calculateTotalMeldPoints (melds : List Meld) : Nat :=
  melds.foldl (fun sum meld => sum + calculateMeldPoints meld) 0

/-- Source `GameRules.meetsFirstMeldRequirement` (rules.js lines 174-176). -/
def meetsFirstMeldRequirement (melds : List Meld) : Bool :=
  decide (FIRST_MELD_MIN_POINTS ≤ calculateTotalMeldPoints melds)

/-- Source `GameRules.getCombinations` (rules.js lines 273-286), also
`AIPlayer.getMeldCombinations` (ai.js lines 95-108), whose body is
identical; hence the polymorphic type.  Size 1 maps each element to a
singleton; otherwise each position `i` contributes `arr[i]` consed onto
every combination of size `size-1` drawn from `arr.slice(i+1)`, and the
length guard reproduces the source's loop bound `i <= arr.length - size`.
The source never calls this with size 0 (it would not terminate there). -/
def getCombinations : List α → Nat → List (List α)
  | _, 0 => []
  | arr, 1 => arr.map (fun item => [item])
  | arr, size + 2 =>
    if arr.length < size + 2 then []
    else
      match arr with
      | [] => []
      | head :: rest =>
        ((getCombinations rest (size + 1)).map (fun tail => head :: tail))
          ++ getCombinations rest (size + 2)

/-- Source `GameRules.hasOverlap` (rules.js lines 291-293). -/
def hasOverlap (cards : List Card) (usedSet : List Nat) : Bool :=
  cards.any (fun c => usedSet.contains c.id)

/-- The meld object pushed for an accepted sequence combination
(rules.js line 190). -/
def mkSequenceMeld (combo : List Card) : Meld :=
  { type := MeldType.sequence, cards := combo, pure := isPureSequence combo }

/-- The meld object pushed for an accepted set combination
(rules.js line 201). -/
def mkSetMeld (combo : List Card) : Meld :=
  { type := MeldType.set, cards := combo, pure := false }

/-- The descending size range `cards.length, ..., 3` of the two loops in
`GameRules.findMelds`; empty when fewer than 3 cards. -/
def sizesDesc (n : Nat) : List Nat :=
  (List.range (n - 2)).map (fun k => n - k)

/-- Loop body of `GameRules.findMelds` for one candidate combination:
accept it iff it validates and does not overlap the used ids, extending the
accumulated melds and used ids. -/
def findMeldsStep (valid : List Card → Bool) (mk : List Card → Meld)
    (st : List Meld × List Nat) (combo : List Card) : List Meld × List Nat :=
  if valid combo && !hasOverlap combo st.2 then
    (st.1 ++ [mk combo], st.2 ++ combo.map (fun c => c.id))
  else st

/-- One size-descending pass of `GameRules.findMelds` (the sequence pass or
the set pass), folded over all sizes and, per size, all combinations. -/
def findMeldsPass (valid : List Card → Bool) (mk : List Card → Meld)
    (cards : List Card) (st : List Meld × List Nat) : List Meld × List Nat :=
  (sizesDesc cards.length).foldl
    (fun st size => (getCombinations cards size).foldl (findMeldsStep valid mk) st) st

/-- Source `GameRules.findMelds` (rules.js lines 181-208): the sequence pass over
all sizes runs first, then the set pass over all sizes, sharing the melds
list and used-id set. -/
def findMelds (cards : List Card) : List Meld :=
  (findMeldsPass isValidSet mkSetMeld cards
    (findMeldsPass isValidSequence mkSequenceMeld cards ([], []))).1

/-- Source `GameRules.canExtendMeld` (rules.js lines 213-220). -/
def canExtendMeld (meld : Meld) (card : Card) : Bool :=
  match meld.type with
  | MeldType.set => isValidSet (meld.cards ++ [card])
  | MeldType.sequence => isValidSequence (meld.cards ++ [card])

/-- Source `GameRules.canZudrehen` (rules.js lines 226-248): exactly one card in
hand, that card extends no table meld, and it is not a joker. -/
def canZudrehen (playerHand : List Card) (tableMelds : List Meld) : Bool :=
  match playerHand with
  | [lastCard] =>
    if tableMelds.any (fun meld => canExtendMeld meld lastCard) then false
    else if lastCard.isJoker then false
    else true
  | _ => false

/-- Source `GameRules.calculateHandPoints` (rules.js lines 253-255). -/
def calculateHandPoints (cards : List Card) : Nat :=
  cards.foldl (fun sum card => sum + getCardPointValue card) 0

/-- The id set `meldCardIds` built in `GameRules.suggestDiscard`
(rules.js lines 300-301). -/
def meldCardIds (melds : List Meld) : List Nat :=
  melds.flatMap (fun m => m.cards.map (fun c => c.id))

/-- The `unmatchedCards` filter of `GameRules.suggestDiscard`
(rules.js line 304). -/
def unmatchedCards (cards : List Card) : List Card :=
  cards.filter (fun c => !(meldCardIds (findMelds cards)).contains c.id)

/-- Source `GameRules.suggestDiscard` (rules.js lines 298-323).  The two
initial-value-free JavaScript `reduce` calls become folds over the tail
started at the head; each would throw on an empty array, hence the `Option`
result (`none` exactly where the source would throw, which requires an
empty input). -/
def suggestDiscard (cards : List Card) : Option Card :=
  let melds := findMelds cards
  match unmatchedCards cards with
  | u :: us =>
    match (u :: us).filter (fun c => !c.isJoker) with
    | n :: ns =>
      some (ns.foldl
        (fun highest card =>
          if getCardPointValue highest < getCardPointValue card then card else highest) n)
    | [] => some u
  | [] =>
    match melds with
    | m :: ms =>
      let smallest := ms.foldl
        (fun smallest meld =>
          if meld.cards.length < smallest.cards.length then meld else smallest) m
      match smallest.cards with
      | c :: _ => some c
      | [] => none
    | [] => none

/-- Inner loop of `AIPlayer.findMeldsToLay` for one combination size
(ai.js lines 77-83): return the first combination whose summed
`calculateMeldPoints` reaches the threshold; the early `return combo` is a
first-match search. -/
def firstQualifyingCombo (combos : List (List Meld)) : Option (List Meld) :=
  combos.find? (fun combo => FIRST_MELD_MIN_POINTS ≤ calculateTotalMeldPoints combo)

/-- Outer loop of `AIPlayer.findMeldsToLay` (ai.js lines 76-84), iterated
over the explicit list of visited sizes. -/
def layLoopAux (melds : List Meld) : List Nat → Option (List Meld)
  | [] => none
  | i :: rest =>
    match firstQualifyingCombo (getCombinations melds i) with
    | some combo => some combo
    | none => layLoopAux melds rest

/-- The size range `1, ..., melds.length` of the outer loop
`for (let i = 1; i <= melds.length; i++)` in `AIPlayer.findMeldsToLay`. -/
def sizesAsc (n : Nat) : List Nat :=
  (List.range n).map (fun k => k + 1)

/-- Outer loop of `AIPlayer.findMeldsToLay` (ai.js lines 76-84). -/
def layLoop (melds : List Meld) : Option (List Meld) :=
  layLoopAux melds (sizesAsc melds.length)

/-- Source `AIPlayer.findMeldsToLay` (ai.js lines 68-90): discover melds; when the
player has not yet melded, return the first size-ascending meld combination
reaching `FIRST_MELD_MIN_POINTS` (empty when none); otherwise all melds. -/
def findMeldsToLay (hand : List Card) (hasMelded : Bool) : List Meld :=
  let melds := findMelds hand
  if melds.length = 0 then []
  else if !hasMelded then (layLoop melds).getD []
  else melds

/-- Source `AIPlayer.canZudrehen` (ai.js lines 113-129): same condition as
`GameRules.canZudrehen` with the joker test performed first. -/
def aiCanZudrehen (hand : List Card) (tableMelds : List Meld) : Bool :=
  match hand with
  | [lastCard] =>
    if lastCard.isJoker then false
    else if tableMelds.any (fun meld => canExtendMeld meld lastCard) then false
    else true
  | _ => false

/-- A deck (`Deck` in `src/unnamed/part_002`): an ordered card array. -/
structure Deck where
  cards : List Card
deriving DecidableEq

/-- Source `Deck.draw` (`src/unnamed/part_002` lines 72-74): `this.cards.pop()`
removes and returns the array's last element; on an empty array `pop`
returns `undefined` (modelled `none`) and leaves the array empty. -/
def Deck.draw (d : Deck) : Option Card × Deck :=
  (d.cards.getLast?, ⟨d.cards.dropLast⟩)

/-- Source `Deck.count` (`src/unnamed/part_002` lines 76-78). -/
def Deck.count (d : Deck) : Nat := d.cards.length

/-- Source `Deck.isEmpty` (`src/unnamed/part_002` lines 80-82). -/
def Deck.isEmpty (d : Deck) : Bool := d.cards.length == 0

/-! ## Specification-side definitions

The following definitions restate, in the spec's own vocabulary, the
properties the claims assert; the theorems below compare them with the
source embedding above. -/

/-- Spec-side sum of the gaps between consecutive entries of a sorted value
list: a gap of size `g` between adjacent values needs `g` filling jokers. -/
def specGapSum : List Nat → Nat
  | a :: b :: rest => (b - a - 1) + specGapSum (b :: rest)
  | _ => 0

/-- Spec-side success of one ace interpretation (claim C1): no two
non-jokers share a rank-value, and the jokers cover the summed gaps between
consecutive sorted rank-values. -/
def seqInterpOk (nonJokers : List Card) (jokerCount : Nat) (aceValue : Nat) : Prop :=
  let values := nonJokers.map (fun c => if c.rank = Rank.A then aceValue else c.value)
  values.Nodup ∧ specGapSum (values.insertionSort (· ≤ ·)) ≤ jokerCount

/-- Spec-side greedy acceptance step (claim C3): accept a candidate meld
iff none of its cards are already claimed, then mark its cards claimed. -/
def acceptStep (st : List Meld × List Nat) (meld : Meld) : List Meld × List Nat :=
  if hasOverlap meld.cards st.2 then st
  else (st.1 ++ [meld], st.2 ++ meld.cards.map (fun c => c.id))

/-- Spec-side greedy cover of an enumerated candidate list (claim C3). -/
def greedyAccept (candidates : List Meld) : List Meld :=
  (candidates.foldl acceptStep ([], [])).1

/-- All valid sequence candidates of a hand, enumerated in descending size. -/
def sequenceCandidates (cards : List Card) : List Meld :=
  (sizesDesc cards.length).flatMap (fun size =>
    ((getCombinations cards size).filter isValidSequence).map mkSequenceMeld)

/-- All valid set candidates of a hand, enumerated in descending size. -/
def setCandidates (cards : List Card) : List Meld :=
  (sizesDesc cards.length).flatMap (fun size =>
    ((getCombinations cards size).filter isValidSet).map mkSetMeld)

/-- The candidate enumeration claim C3 describes: descending size, with the
sequences of each size immediately followed by the sets of the same size. -/
def claimOrderCandidates (cards : List Card) : List Meld :=
  (sizesDesc cards.length).flatMap (fun size =>
    ((getCombinations cards size).filter isValidSequence).map mkSequenceMeld
      ++ ((getCombinations cards size).filter isValidSet).map mkSetMeld)

/-- Non-overlap relation between melds (claim C4): no card of one shares an
identity key with a card of the other. -/
def meldsDisjoint (m1 m2 : Meld) : Prop :=
  ∀ c1 ∈ m1.cards, ∀ c2 ∈ m2.cards, c1.id ≠ c2.id

/-- Meld points exactly as claim C5 words them: the flat bonus only for a
Set of exactly three Aces *with no joker*; otherwise the sum of per-card
meld values with jokers contributing the rounded average of the non-joker
values. -/
def claimMeldPoints (meld : Meld) : Nat :=
  let isHighAce := meld.type == MeldType.sequence && isHighAceSequence meld.cards
  if meld.type = MeldType.set
      ∧ (∀ c ∈ meld.cards, c.isJoker = false ∧ c.rank = Rank.A)
      ∧ meld.cards.length = 3 then THREE_ACES_POINTS
  else
    (meld.cards.map (fun card =>
      if card.isJoker then estimateJokerValue meld
      else getMeldPointValue card isHighAce)).sum

/-- Meld points as amended for claim C5: the flat bonus is keyed on the
non-joker cards alone (a Set whose non-jokers are exactly three Aces,
jokers permitted); otherwise the per-card sum as in the claim. -/
def amendedMeldPoints (meld : Meld) : Nat :=
  let isHighAce := meld.type == MeldType.sequence && isHighAceSequence meld.cards
  let nonJokers := meld.cards.filter (fun c => !c.isJoker)
  if meld.type = MeldType.set
      ∧ (∀ c ∈ nonJokers, c.rank = Rank.A)
      ∧ nonJokers.length = 3 then THREE_ACES_POINTS
  else
    (meld.cards.map (fun card =>
      if card.isJoker then estimateJokerValue meld
      else getMeldPointValue card isHighAce)).sum

/-- The size-ascending enumeration of meld combinations searched by
`AIPlayer.findMeldsToLay` (claim C6). -/
def orderedCombos (melds : List Meld) : List (List Meld) :=
  (sizesAsc melds.length).flatMap (fun i => getCombinations melds i)

/-- The per-combination qualification test of claim C6. -/
def comboQualifies (combo : List Meld) : Bool :=
  decide (FIRST_MELD_MIN_POINTS ≤ calculateTotalMeldPoints combo)

/-- The discard suggestion claim C8 words for the case where uncovered
cards exist: the returned card is a non-joker among the uncovered cards of
maximal hand-point value. -/
def claimDiscardOk (cards : List Card) : Prop :=
  unmatchedCards cards ≠ [] →
    ∃ c ∈ unmatchedCards cards, suggestDiscard cards = some c ∧ c.isJoker = false ∧
      ∀ d ∈ unmatchedCards cards, d.isJoker = false →
        getCardPointValue d ≤ getCardPointValue c

/-! ## Concrete cards used by witnesses and counterexamples -/

/-- The five of spades. -/
def card5S : Card := ⟨Suit.spades, Rank.r5, false, 0⟩
/-- The six of spades. -/
def card6S : Card := ⟨Suit.spades, Rank.r6, false, 1⟩
/-- The seven of spades. -/
def card7S : Card := ⟨Suit.spades, Rank.r7, false, 2⟩
/-- The seven of hearts. -/
def card7H : Card := ⟨Suit.hearts, Rank.r7, false, 3⟩
/-- The seven of diamonds. -/
def card7D : Card := ⟨Suit.diamonds, Rank.r7, false, 4⟩
/-- The seven of clubs. -/
def card7C : Card := ⟨Suit.clubs, Rank.r7, false, 5⟩
/-- A joker.  The source stores `null` suit and rank for jokers and never
reads them; the field values chosen here are arbitrary. -/
def joker1 : Card := ⟨Suit.spades, Rank.A, true, 6⟩
/-- A second joker, with a distinct identity key. -/
def joker2 : Card := ⟨Suit.spades, Rank.A, true, 7⟩
/-- The ace of spades. -/
def cardAS : Card := ⟨Suit.spades, Rank.A, false, 8⟩
/-- The ace of hearts. -/
def cardAH : Card := ⟨Suit.hearts, Rank.A, false, 9⟩
/-- The ace of diamonds. -/
def cardAD : Card := ⟨Suit.diamonds, Rank.A, false, 10⟩
/-- The ten of spades. -/
def card10S : Card := ⟨Suit.spades, Rank.r10, false, 11⟩
/-- The jack of spades. -/
def cardJS : Card := ⟨Suit.spades, Rank.J, false, 12⟩
/-- The queen of spades. -/
def cardQS : Card := ⟨Suit.spades, Rank.Q, false, 13⟩
/-- The king of spades. -/
def cardKS : Card := ⟨Suit.spades, Rank.K, false, 14⟩

/-- A hand holding a run of spades 5-6-7, the three other sevens and one
joker; it separates the source's meld-discovery order from the order claim
C3 describes. -/
def handC3 : List Card := [card5S, card6S, card7S, card7H, card7D, card7C, joker1]

/-- A five-card same-rank group: three aces and two jokers. -/
def fiveCardGroup : List Card := [cardAS, cardAH, cardAD, joker1, joker2]

/-- A set meld of three aces plus a joker. -/
def threeAcesJokerMeld : Meld := ⟨MeldType.set, [cardAS, cardAH, cardAD, joker1], false⟩

/-! ## Helper lemmas -/

/-- A fold preserves any invariant its step preserves on the list's
members. -/
lemma foldl_preserve {α β : Type} (P : β → Prop) (step : β → α → β) :
    ∀ (l : List α), (∀ st x, x ∈ l → P st → P (step st x)) →
      ∀ st, P st → P (l.foldl step st)
  | [], _, _, hst => hst
  | x :: xs, h, st, hst =>
    foldl_preserve P step xs (fun st y hy => h st y (List.mem_cons_of_mem x hy))
      (step st x) (h st x (List.mem_cons_self x xs) hst)

/-- Accumulating a mapped value by `foldl` is adding the mapped sum. -/
lemma foldl_add_eq_add_sum {α : Type} (f : α → Nat) :
    ∀ (l : List α) (a : Nat), l.foldl (fun s c => s + f c) a = a + (l.map f).sum
  | [], a => by simp
  | x :: xs, a => by
    simp only [List.foldl_cons, List.map_cons, List.sum_cons]
    rw [foldl_add_eq_add_sum f xs (a + f x)]
    omega

/-- Folding over a `flatMap` folds each block in turn. -/
lemma foldl_flatMap {α β γ : Type} (g : α → List β) (f : γ → β → γ) :
    ∀ (l : List α) (st : γ),
      (l.flatMap g).foldl f st = l.foldl (fun st x => (g x).foldl f st) st
  | [], _ => rfl
  | x :: xs, st => by
    simp only [List.flatMap_cons, List.foldl_append, List.foldl_cons]
    exact foldl_flatMap g f xs ((g x).foldl f st)

/-- A nonempty list shares one value of `f` with its head iff some value of
`f` is shared by all members. -/
lemma all_eq_head_iff {β : Type} [DecidableEq β] (f : Card → β) (c0 : Card)
    (rest : List Card) :
    ((c0 :: rest).all (fun c => f c == f c0) = true) ↔
      ∃ b, ∀ c ∈ c0 :: rest, f c = b := by
  simp only [List.all_eq_true, beq_iff_eq]
  constructor
  · intro h
    exact ⟨f c0, h⟩
  · rintro ⟨b, hb⟩ c hc
    rw [hb c hc, hb c0 (List.mem_cons_self _ _)]

/-- On a `≤`-sorted list, the adjacent-duplicate scan of
`isValidSequenceWithAceValue` fails exactly on lists with duplicates. -/
lemma hasAdjacentDup_eq_false_iff {l : List Nat} (hs : l.Sorted (· ≤ ·)) :
    hasAdjacentDup l = false ↔ l.Nodup := by
  induction l with
  | nil => simp [hasAdjacentDup]
  | cons a rest ih =>
    cases rest with
    | nil => simp [hasAdjacentDup]
    | cons b rest2 =>
      have hab : a ≤ b := (List.sorted_cons.mp hs).1 b (List.mem_cons_self _ _)
      have hble : ∀ x ∈ rest2, b ≤ x := (List.sorted_cons.mp (List.sorted_cons.mp hs).2).1
      have htail : (b :: rest2).Sorted (· ≤ ·) := (List.sorted_cons.mp hs).2
      rw [show hasAdjacentDup (a :: b :: rest2) = ((a == b) || hasAdjacentDup (b :: rest2))
        from rfl]
      rw [Bool.or_eq_false_iff, ih htail]
      constructor
      · rintro ⟨hne, hnd⟩
        refine List.nodup_cons.mpr ⟨?_, hnd⟩
        intro hmem
        rcases List.mem_cons.mp hmem with heq | hmem2
        · exact absurd (by simpa using heq) (by simpa using hne)
        · have hba : b ≤ a := hble a hmem2
          have : a = b := Nat.le_antisymm hab hba
          exact absurd (by simpa using this) (by simpa using hne)
      · intro hnd
        rcases List.nodup_cons.mp hnd with ⟨hnotmem, hnd2⟩
        refine ⟨?_, hnd2⟩
        simp only [beq_eq_false_iff_ne, ne_eq]
        intro heq
        exact hnotmem (heq ▸ List.mem_cons_self _ _)

/-- On a `≤`-sorted list the source's `Int`-valued joker-gap accumulation
agrees with the spec-side `Nat` gap sum. -/
lemma jokersNeededOf_eq_specGapSum {l : List Nat} (hs : l.Sorted (· ≤ ·)) :
    jokersNeededOf l = (specGapSum l : Int) := by
  induction l with
  | nil => simp [jokersNeededOf, specGapSum]
  | cons a rest ih =>
    cases rest with
    | nil => simp [jokersNeededOf, specGapSum]
    | cons b rest2 =>
      have hab : a ≤ b := (List.sorted_cons.mp hs).1 b (List.mem_cons_self _ _)
      have htail : (b :: rest2).Sorted (· ≤ ·) := (List.sorted_cons.mp hs).2
      rw [show jokersNeededOf (a :: b :: rest2) =
        (if (0 : Int) < (b : Int) - (a : Int) - 1 then (b : Int) - (a : Int) - 1 else 0)
          + jokersNeededOf (b :: rest2) from rfl]
      rw [show specGapSum (a :: b :: rest2) = (b - a - 1) + specGapSum (b :: rest2) from rfl]
      rw [ih htail]
      push_cast
      split
      · omega
      · omega

/-- The ace-interpretation check of the source coincides with the spec-side
interpretation predicate of claim C1. -/
lemma isValidSequenceWithAceValue_iff (nonJokers : List Card) (jokerCount : Nat)
    (aceValue : Nat) :
    isValidSequenceWithAceValue nonJokers jokerCount aceValue = true ↔
      seqInterpOk nonJokers jokerCount aceValue := by
  have hvals : nonJokers.map (fun c => if c.rank == Rank.A then aceValue else c.value)
      = nonJokers.map (fun c => if c.rank = Rank.A then aceValue else c.value) := by
    apply List.map_congr_left
    intro c _
    by_cases h : c.rank = Rank.A <;> simp [h]
  simp only [isValidSequenceWithAceValue, seqInterpOk, hvals]
  set values := nonJokers.map (fun c => if c.rank = Rank.A then aceValue else c.value) with hv
  set sorted := values.insertionSort (· ≤ ·) with hsort
  have hsorted : sorted.Sorted (· ≤ ·) := List.sorted_insertionSort (· ≤ ·) values
  have hperm : sorted.Perm values := List.perm_insertionSort (· ≤ ·) values
  have hgapeq := jokersNeededOf_eq_specGapSum hsorted
  have hdupiff := hasAdjacentDup_eq_false_iff hsorted
  cases hdup : hasAdjacentDup sorted with
  | true =>
    rw [if_pos rfl]
    constructor
    · intro h
      exact Bool.noConfusion h
    · rintro ⟨hnd, -⟩
      have hnds : hasAdjacentDup sorted = false :=
        hdupiff.mpr (hperm.nodup_iff.mpr hnd)
      rw [hdup] at hnds
      exact Bool.noConfusion hnds
  | false =>
    rw [if_neg (by simp)]
    rw [decide_eq_true_eq]
    constructor
    · intro h
      exact ⟨hperm.nodup_iff.mp (hdupiff.mp hdup), by omega⟩
    · rintro ⟨-, hgap⟩
      omega

/-! ## Claim theorems -/

/-- Claim C2 (counterexample): `isValidSet` accepts the five-card group of
three aces and two jokers, so groups of size outside `[3, 4]` are not all
rejected. -/
theorem c2_counterexample :
    isValidSet fiveCardGroup = true ∧ fiveCardGroup.length = 5 := by
  decide

/-- Claim C2 as amended: `isValidSet cards` is true iff the group has at
least 3 cards, at least one non-joker, and all non-jokers share one rank;
there is no upper size bound in the source. -/
theorem c2_isValidSet_characterization (cards : List Card) :
    isValidSet cards = true ↔
      3 ≤ cards.length ∧ cards.filter (fun c => !c.isJoker) ≠ [] ∧
        ∃ r, ∀ c ∈ cards.filter (fun c => !c.isJoker), c.rank = r := by
  unfold isValidSet
  split
  case isTrue hlt =>
    constructor
    · intro h
      exact Bool.noConfusion h
    · rintro ⟨h3, -, -⟩
      simp only [MIN_SET_SIZE] at hlt
      omega
  case isFalse hge =>
    have h3 : 3 ≤ cards.length := by simp only [MIN_SET_SIZE] at hge; omega
    split
    case h_1 heq => simp [heq]
    case h_2 c0 rest heq =>
      rw [all_eq_head_iff Card.rank c0 rest]
      simp [heq, h3]

/-- Claim C2 (witness for the amended characterization): the three sevens
form a valid set with shared rank 7. -/
theorem c2_witness : isValidSet [card7S, card7H, card7D] = true :=
  (c2_isValidSet_characterization [card7S, card7H, card7D]).mpr
    ⟨by decide, by decide, ⟨Rank.r7, by decide⟩⟩

/-- Claim C7: `canZudrehen` succeeds exactly on a one-card hand whose card
is not a joker and extends no table meld; in particular a sole joker is
always rejected. -/
theorem c7_canZudrehen_iff (hand : List Card) (tableMelds : List Meld) :
    canZudrehen hand tableMelds = true ↔
      ∃ c, hand = [c] ∧ c.isJoker = false ∧
        ∀ m ∈ tableMelds, canExtendMeld m c = false := by
  match hand with
  | [] => simp [canZudrehen]
  | c :: c2 :: rest => simp [canZudrehen]
  | [c] =>
    have hunf : canZudrehen [c] tableMelds =
        (if tableMelds.any (fun meld => canExtendMeld meld c) then false
         else if c.isJoker then false else true) := rfl
    rw [hunf]
    cases hany : tableMelds.any (fun meld => canExtendMeld meld c) with
    | true =>
      rw [if_pos rfl]
      constructor
      · intro h
        exact Bool.noConfusion h
      · rintro ⟨c1, hc1, -, hext⟩
        obtain rfl : c1 = c := by simpa using hc1.symm
        rcases List.any_eq_true.mp hany with ⟨m, hm, hmx⟩
        rw [hext m hm] at hmx
        exact Bool.noConfusion hmx
    | false =>
      rw [if_neg (by simp)]
      cases hjk : c.isJoker with
      | true =>
        rw [if_pos rfl]
        constructor
        · intro h
          exact Bool.noConfusion h
        · rintro ⟨c1, hc1, hjk1, -⟩
          obtain rfl : c1 = c := by simpa using hc1.symm
          rw [hjk] at hjk1
          exact Bool.noConfusion hjk1
      | false =>
        rw [if_neg (by simp)]
        simp only [true_iff]
        exact ⟨c, rfl, hjk, fun m hm => by
          have h := List.any_eq_false.mp hany m hm
          simpa using h⟩

/-- The `ai.js` variant of the end-round check (which tests the joker flag
before scanning the table) agrees with the rules-engine variant. -/
lemma aiCanZudrehen_eq (hand : List Card) (tableMelds : List Meld) :
    aiCanZudrehen hand tableMelds = canZudrehen hand tableMelds := by
  match hand with
  | [] => rfl
  | c :: c2 :: rest => rfl
  | [c] =>
    show (if c.isJoker then false
          else if tableMelds.any (fun meld => canExtendMeld meld c) then false else true)
        = (if tableMelds.any (fun meld => canExtendMeld meld c) then false
           else if c.isJoker then false else true)
    cases hj : c.isJoker <;> cases ha : tableMelds.any (fun meld => canExtendMeld meld c) <;>
      simp

/-- Claim C7 (witness): a lone seven of spades with an empty table is
eligible to end the round. -/
theorem c7_witness : canZudrehen [card7S] [] = true :=
  (c7_canZudrehen_iff [card7S] []).mpr ⟨card7S, rfl, rfl, by simp⟩

/-- Claim C9: drawing removes and returns the deck's last card, yields
`none` (the source's `undefined`) exactly when the deck is empty, and
`isEmpty` reports exactly the empty deck. -/
theorem c9_deck_draw_spec (d : Deck) :
    (d.cards = [] → d.draw = (none, d)) ∧
    (∀ c rest, d.cards = rest ++ [c] → d.draw = (some c, ⟨rest⟩)) ∧
    (d.isEmpty = true ↔ d.cards = []) ∧
    ((d.draw).1 = none ↔ d.cards = []) := by
  obtain ⟨cards⟩ := d
  refine ⟨?_, ?_, ?_, ?_⟩
  · rintro rfl
    rfl
  · rintro c rest rfl
    simp [Deck.draw]
  · simp [Deck.isEmpty, List.length_eq_zero]
  · simp [Deck.draw, List.getLast?_eq_none_iff]

/-- Claim C9 (witness): drawing from a one-card deck returns that card and
leaves the empty deck; the empty deck reports empty and fails to draw. -/
theorem c9_witness :
    Deck.draw ⟨[card7S]⟩ = (some card7S, ⟨[]⟩) ∧ Deck.isEmpty ⟨[]⟩ = true ∧
      (Deck.draw ⟨([] : List Card)⟩).1 = none :=
  ⟨(c9_deck_draw_spec ⟨[card7S]⟩).2.1 card7S [] rfl,
   (c9_deck_draw_spec ⟨[]⟩).2.2.1.mpr rfl,
   (c9_deck_draw_spec ⟨[]⟩).2.2.2.mpr rfl⟩

/-- Claim C10: the three-aces flat bonus of `calculateMeldPoints` is keyed
on the non-joker cards alone, so a set whose non-jokers are exactly three
aces scores 25 even when a joker is also present. -/
theorem c10_three_aces_with_joker (meld : Meld)
    (htype : meld.type = MeldType.set)
    (hranks : ∀ c ∈ meld.cards.filter (fun c => !c.isJoker), c.rank = Rank.A)
    (hlen : (meld.cards.filter (fun c => !c.isJoker)).length = 3) :
    calculateMeldPoints meld = 25 := by
  have hcond : (meld.type == MeldType.set
      && (meld.cards.filter (fun c => !c.isJoker)).all (fun c => c.rank == Rank.A)
      && ((meld.cards.filter (fun c => !c.isJoker)).length == MIN_SET_SIZE)) = true := by
    simp only [Bool.and_eq_true, beq_iff_eq, List.all_eq_true]
    refine ⟨⟨htype, fun c hc => hranks c hc⟩, ?_⟩
    simp [hlen, MIN_SET_SIZE]
  simp only [calculateMeldPoints]
  rw [hcond, if_pos rfl]
  rfl

/-- Claim C10 (witness): the set of three aces plus a joker scores 25. -/
theorem c10_witness : calculateMeldPoints threeAcesJokerMeld = 25 :=
  c10_three_aces_with_joker threeAcesJokerMeld rfl (by decide) (by decide)

/-- Claim C1: `isValidSequence` accepts exactly the groups with at least 3
cards, at least one non-joker, all non-jokers on one suit, and some ace
interpretation (1 or 14) under which the non-joker rank-values are distinct
and the jokers cover the gaps between consecutive sorted rank-values. -/
theorem c1_isValidSequence_characterization (cards : List Card) :
    isValidSequence cards = true ↔
      3 ≤ cards.length ∧
      cards.filter (fun c => !c.isJoker) ≠ [] ∧
      (∃ s, ∀ c ∈ cards.filter (fun c => !c.isJoker), c.suit = s) ∧
      (seqInterpOk (cards.filter (fun c => !c.isJoker))
          (cards.filter (fun c => c.isJoker)).length 1 ∨
        seqInterpOk (cards.filter (fun c => !c.isJoker))
          (cards.filter (fun c => c.isJoker)).length 14) := by
  have hunf : isValidSequence cards =
      (if cards.length < MIN_SEQUENCE_SIZE then false
       else match cards.filter (fun c => !c.isJoker) with
       | [] => false
       | c0 :: rest =>
         if !((c0 :: rest).all (fun c => c.suit == c0.suit)) then false
         else
           isValidSequenceWithAceValue (c0 :: rest)
               (cards.filter (fun c => c.isJoker)).length 1
             || isValidSequenceWithAceValue (c0 :: rest)
               (cards.filter (fun c => c.isJoker)).length 14) := rfl
  rw [hunf]
  split
  case isTrue hlt =>
    constructor
    · intro h
      exact Bool.noConfusion h
    · rintro ⟨h3, -, -, -⟩
      simp only [MIN_SEQUENCE_SIZE] at hlt
      omega
  case isFalse hge =>
    have h3 : 3 ≤ cards.length := by
      simp only [MIN_SEQUENCE_SIZE] at hge
      omega
    cases hnj : cards.filter (fun c => !c.isJoker) with
    | nil => simp
    | cons c0 rest =>
      show (if !((c0 :: rest).all fun c => c.suit == c0.suit) then false
          else
            isValidSequenceWithAceValue (c0 :: rest)
                (cards.filter (fun c => c.isJoker)).length 1
              || isValidSequenceWithAceValue (c0 :: rest)
                (cards.filter (fun c => c.isJoker)).length 14) = true ↔ _
      cases hall : (c0 :: rest).all (fun c => c.suit == c0.suit) with
      | false =>
        rw [if_pos (by decide)]
        constructor
        · intro h
          exact Bool.noConfusion h
        · rintro ⟨-, -, ⟨s, hs⟩, -⟩
          have h1 := (all_eq_head_iff Card.suit c0 rest).mpr ⟨s, hs⟩
          rw [hall] at h1
          exact Bool.noConfusion h1
      | true =>
        rw [if_neg (by decide)]
        rw [Bool.or_eq_true]
        rw [isValidSequenceWithAceValue_iff, isValidSequenceWithAceValue_iff]
        constructor
        · intro hAB
          exact ⟨h3, by simp, (all_eq_head_iff Card.suit c0 rest).mp hall, hAB⟩
        · rintro ⟨-, -, -, hAB⟩
          exact hAB

/-- Claim C1 (witness): Q-K-A of spades is a valid sequence through the
high-ace interpretation. -/
theorem c1_witness : isValidSequence [cardQS, cardKS, cardAS] = true :=
  (c1_isValidSequence_characterization [cardQS, cardKS, cardAS]).mpr
    ⟨by decide, by decide, ⟨Suit.spades, by decide⟩, Or.inr ⟨by decide, by decide⟩⟩

/-- Two folds coincide when their step functions agree pointwise. -/
lemma foldl_congr_fun {α β : Type} (f g : β → α → β) (h : ∀ st x, f st x = g st x) :
    ∀ (l : List α) (st : β), l.foldl f st = l.foldl g st
  | [], _ => rfl
  | x :: xs, st => by
    rw [List.foldl_cons, List.foldl_cons, h st x]
    exact foldl_congr_fun f g h xs (g st x)

/-- Checking validity inside the greedy fold is filtering the candidate
combinations up front and folding the pure acceptance step. -/
lemma foldl_findMeldsStep_eq (valid : List Card → Bool) (mk : List Card → Meld)
    (hmk : ∀ combo, (mk combo).cards = combo) :
    ∀ (combos : List (List Card)) (st : List Meld × List Nat),
      combos.foldl (findMeldsStep valid mk) st
        = ((combos.filter valid).map mk).foldl acceptStep st
  | [], _ => rfl
  | combo :: rest, st => by
    cases hv : valid combo with
    | true =>
      rw [List.foldl_cons, List.filter_cons_of_pos hv, List.map_cons, List.foldl_cons]
      have hstep : findMeldsStep valid mk st combo = acceptStep st (mk combo) := by
        unfold findMeldsStep acceptStep
        rw [hv, hmk]
        cases hov : hasOverlap combo st.2 with
        | true => rw [if_neg (by simp [hov]), if_pos rfl]
        | false => rw [if_pos (by simp [hov]), if_neg (by simp [hov])]
      rw [hstep]
      exact foldl_findMeldsStep_eq valid mk hmk rest _
    | false =>
      rw [List.foldl_cons, List.filter_cons_of_neg (by simp [hv])]
      have hstep : findMeldsStep valid mk st combo = st := by
        unfold findMeldsStep
        rw [if_neg (by simp [hv])]
      rw [hstep]
      exact foldl_findMeldsStep_eq valid mk hmk rest st

/-- One pass of `findMelds` is the greedy acceptance fold over that pass's
size-descending candidate enumeration. -/
lemma findMeldsPass_eq (valid : List Card → Bool) (mk : List Card → Meld)
    (hmk : ∀ combo, (mk combo).cards = combo) (cards : List Card)
    (st : List Meld × List Nat) :
    findMeldsPass valid mk cards st =
      ((sizesDesc cards.length).flatMap (fun size =>
        ((getCombinations cards size).filter valid).map mk)).foldl acceptStep st := by
  unfold findMeldsPass
  rw [foldl_flatMap]
  exact foldl_congr_fun _ _
    (fun st size => foldl_findMeldsStep_eq valid mk hmk (getCombinations cards size) st)
    (sizesDesc cards.length) st

/-- Claim C3 as amended: `findMelds` is the greedy cover over the candidate
enumeration that lists all sequence candidates in descending size first and
only then all set candidates in descending size. -/
theorem c3_findMelds_greedy_order (cards : List Card) :
    findMelds cards = greedyAccept (sequenceCandidates cards ++ setCandidates cards) := by
  unfold findMelds greedyAccept sequenceCandidates setCandidates
  rw [List.foldl_append]
  rw [findMeldsPass_eq isValidSequence mkSequenceMeld (fun _ => rfl) cards ([], [])]
  rw [findMeldsPass_eq isValidSet mkSetMeld (fun _ => rfl) cards]

set_option maxRecDepth 1000000 in
/-- Claim C3 (counterexample): on `handC3` the source's result (all
sequence sizes before any set) differs from the greedy cover under the
claim's per-size interleaved enumeration, which instead grabs the five-card
set of sevens first. -/
theorem c3_counterexample :
    findMelds handC3 ≠ greedyAccept (claimOrderCandidates handC3) := by
  decide

/-- The acceptance step of `findMelds` preserves the invariant that every
accepted meld's card ids are recorded as used and accepted melds are
pairwise id-disjoint. -/
lemma findMeldsStep_inv (valid : List Card → Bool) (mk : List Card → Meld)
    (hmk : ∀ combo, (mk combo).cards = combo) (st : List Meld × List Nat)
    (combo : List Card)
    (hst : (∀ m ∈ st.1, ∀ c ∈ m.cards, c.id ∈ st.2) ∧ st.1.Pairwise meldsDisjoint) :
    (∀ m ∈ (findMeldsStep valid mk st combo).1, ∀ c ∈ m.cards,
        c.id ∈ (findMeldsStep valid mk st combo).2)
      ∧ (findMeldsStep valid mk st combo).1.Pairwise meldsDisjoint := by
  unfold findMeldsStep
  cases hacc : (valid combo && !hasOverlap combo st.2) with
  | false =>
    rw [if_neg (by simp [hacc])]
    exact hst
  | true =>
    rw [if_pos (by simp [hacc])]
    have hnov : hasOverlap combo st.2 = false := by
      have h2 := hacc
      simp only [Bool.and_eq_true, Bool.not_eq_true'] at h2
      exact h2.2
    have hnotin : ∀ c ∈ combo, c.id ∉ st.2 := by
      intro c hc hmem
      have hov : hasOverlap combo st.2 = true := by
        unfold hasOverlap
        exact List.any_eq_true.mpr ⟨c, hc, by simpa [List.elem_iff] using hmem⟩
      rw [hnov] at hov
      exact Bool.noConfusion hov
    constructor
    · intro m hm c hc
      rcases List.mem_append.mp hm with hm1 | hm2
      · exact List.mem_append_left _ (hst.1 m hm1 c hc)
      · have hm2 : m = mk combo := by simpa using hm2
        subst hm2
        rw [hmk] at hc
        exact List.mem_append_right _ (List.mem_map.mpr ⟨c, hc, rfl⟩)
    · rw [List.pairwise_append]
      refine ⟨hst.2, List.pairwise_singleton _ _, ?_⟩
      intro m1 hm1 m2 hm2
      have hm2 : m2 = mk combo := by simpa using hm2
      subst hm2
      intro c1 hc1 c2 hc2
      rw [hmk] at hc2
      have h1 : c1.id ∈ st.2 := hst.1 m1 hm1 c1 hc1
      have h2 : c2.id ∉ st.2 := hnotin c2 hc2
      intro heq
      rw [heq] at h1
      exact h2 h1

/-- Both passes of `findMelds` preserve the id-disjointness invariant. -/
lemma findMeldsPass_inv (valid : List Card → Bool) (mk : List Card → Meld)
    (hmk : ∀ combo, (mk combo).cards = combo) (cards : List Card)
    (st : List Meld × List Nat)
    (hst : (∀ m ∈ st.1, ∀ c ∈ m.cards, c.id ∈ st.2) ∧ st.1.Pairwise meldsDisjoint) :
    (∀ m ∈ (findMeldsPass valid mk cards st).1, ∀ c ∈ m.cards,
        c.id ∈ (findMeldsPass valid mk cards st).2)
      ∧ (findMeldsPass valid mk cards st).1.Pairwise meldsDisjoint := by
  unfold findMeldsPass
  refine foldl_preserve
    (fun st => (∀ m ∈ st.1, ∀ c ∈ m.cards, c.id ∈ st.2) ∧ st.1.Pairwise meldsDisjoint)
    _ _ ?_ st hst
  intro st1 size _ hst1
  refine foldl_preserve
    (fun st => (∀ m ∈ st.1, ∀ c ∈ m.cards, c.id ∈ st.2) ∧ st.1.Pairwise meldsDisjoint)
    _ _ ?_ st1 hst1
  intro st2 combo _ hst2
  exact findMeldsStep_inv valid mk hmk st2 combo hst2

/-- Claim C4: no two distinct melds returned by `findMelds` contain cards
with the same identity key. -/
theorem c4_findMelds_no_overlap (cards : List Card) :
    (findMelds cards).Pairwise meldsDisjoint := by
  unfold findMelds
  exact (findMeldsPass_inv isValidSet mkSetMeld (fun _ => rfl) cards _
    (findMeldsPass_inv isValidSequence mkSequenceMeld (fun _ => rfl) cards ([], [])
      ⟨by simp, List.Pairwise.nil⟩)).2

/-- Claim C4 (witness): the two melds discovered on `handC3` share no card
identity. -/
theorem c4_witness : (findMelds handC3).Pairwise meldsDisjoint :=
  c4_findMelds_no_overlap handC3

/-- Claim C5 (counterexample): on the set of three aces plus a joker the
source returns the flat bonus 25, while the claim's wording (which demands
"no joker" for the special case) yields the per-card sum 20. -/
theorem c5_counterexample :
    calculateMeldPoints threeAcesJokerMeld ≠ claimMeldPoints threeAcesJokerMeld ∧
      calculateMeldPoints threeAcesJokerMeld = 25 ∧
      claimMeldPoints threeAcesJokerMeld = 20 := by
  decide

/-- Claim C5 as amended: `calculateMeldPoints` equals the claimed scoring
with the special case keyed on the non-joker cards alone (a Set whose
non-jokers are exactly three Aces, jokers permitted). -/
theorem c5_calculateMeldPoints_amended (meld : Meld) :
    calculateMeldPoints meld = amendedMeldPoints meld := by
  have hbp : (meld.type == MeldType.set
      && (meld.cards.filter (fun c => !c.isJoker)).all (fun c => c.rank == Rank.A)
      && ((meld.cards.filter (fun c => !c.isJoker)).length == MIN_SET_SIZE)) = true ↔
      (meld.type = MeldType.set
        ∧ (∀ c ∈ meld.cards.filter (fun c => !c.isJoker), c.rank = Rank.A)
        ∧ (meld.cards.filter (fun c => !c.isJoker)).length = 3) := by
    simp only [Bool.and_eq_true, beq_iff_eq, List.all_eq_true, and_assoc, MIN_SET_SIZE]
  simp only [calculateMeldPoints, amendedMeldPoints]
  by_cases hp : meld.type = MeldType.set
      ∧ (∀ c ∈ meld.cards.filter (fun c => !c.isJoker), c.rank = Rank.A)
      ∧ (meld.cards.filter (fun c => !c.isJoker)).length = 3
  · rw [if_pos (hbp.mpr hp), if_pos hp]
  · rw [if_neg (fun h => hp (hbp.mp h)), if_neg hp]
    rw [foldl_add_eq_add_sum]
    rw [Nat.zero_add]

/-- Every member of `getCombinations arr size` has length `size`. -/
lemma length_of_mem_getCombinations {α : Type} :
    ∀ (arr : List α) (size : Nat) (c : List α),
      c ∈ getCombinations arr size → c.length = size := by
  intro arr
  induction arr with
  | nil =>
    intro size c hc
    match size with
    | 0 => simp [getCombinations] at hc
    | 1 => simp [getCombinations] at hc
    | size + 2 => simp [getCombinations] at hc
  | cons a rest ih =>
    intro size c hc
    match size with
    | 0 => simp [getCombinations] at hc
    | 1 =>
      simp only [getCombinations, List.mem_map] at hc
      rcases hc with ⟨x, -, rfl⟩
      rfl
    | size + 2 =>
      rw [getCombinations] at hc
      split at hc
      · simp at hc
      · rcases List.mem_append.mp hc with h1 | h2
        · rcases List.mem_map.mp h1 with ⟨tail, htail, rfl⟩
          have := ih (size + 1) tail htail
          simp [this]
        · exact ih (size + 2) c h2

/-- Members of the descending size range lie between 3 and the hand size. -/
lemma mem_sizesDesc {n s : Nat} (h : s ∈ sizesDesc n) : 3 ≤ s ∧ s ≤ n := by
  unfold sizesDesc at h
  rcases List.mem_map.mp h with ⟨k, hk, rfl⟩
  have := List.mem_range.mp hk
  omega

/-- The ascending size range of `findMeldsToLay` is weakly increasing. -/
lemma sizesAsc_pairwise (n : Nat) : (sizesAsc n).Pairwise (· ≤ ·) := by
  unfold sizesAsc
  refine List.Pairwise.map (fun k => k + 1) ?_ (List.pairwise_lt_range n)
  intro a b h
  show a + 1 ≤ b + 1
  omega

/-- The early-return outer loop of `findMeldsToLay` is a first-match search
over the size-ordered concatenation of all meld combinations. -/
lemma layLoopAux_eq_find? (melds : List Meld) :
    ∀ (sizes : List Nat),
      layLoopAux melds sizes
        = (sizes.flatMap (fun i => getCombinations melds i)).find? comboQualifies
  | [] => rfl
  | i :: rest => by
    rw [List.flatMap_cons, List.find?_append]
    have hfq : firstQualifyingCombo (getCombinations melds i)
        = (getCombinations melds i).find? comboQualifies := rfl
    show (match firstQualifyingCombo (getCombinations melds i) with
      | some combo => some combo
      | none => layLoopAux melds rest) = _
    rw [hfq]
    cases hf : (getCombinations melds i).find? comboQualifies with
    | some combo => rfl
    | none =>
      show layLoopAux melds rest = _
      rw [layLoopAux_eq_find? melds rest]
      rfl

/-- In a size-ordered combination enumeration, everything strictly shorter
than the first match fails the search predicate. -/
lemma find?_size_ordered_minimal {β : Type} (f : Nat → List (List β))
    (p : List β → Bool) (hlen : ∀ k c, c ∈ f k → c.length = k) :
    ∀ (sizes : List Nat), sizes.Pairwise (· ≤ ·) →
      ∀ r, (sizes.flatMap f).find? p = some r →
        ∀ c ∈ sizes.flatMap f, c.length < r.length → p c = false := by
  intro sizes
  induction sizes with
  | nil =>
    intro _ r hr
    simp at hr
  | cons s rest ih =>
    intro hpw r hr c hc hlt
    rw [List.flatMap_cons, List.find?_append] at hr
    rcases List.pairwise_cons.mp hpw with ⟨hle, hpw2⟩
    rw [List.flatMap_cons] at hc
    cases hfs : (f s).find? p with
    | some r0 =>
      rw [hfs] at hr
      have hr0 : r0 = r := by simpa using hr
      subst hr0
      have hrs : r0.length = s := hlen s r0 (List.mem_of_find?_eq_some hfs)
      rcases List.mem_append.mp hc with hc1 | hc2
      · have := hlen s c hc1
        omega
      · rcases List.mem_flatMap.mp hc2 with ⟨k, hk, hck⟩
        have := hlen k c hck
        have := hle k hk
        omega
    | none =>
      rw [hfs] at hr
      have hr2 : (rest.flatMap f).find? p = some r := by simpa using hr
      rcases List.mem_append.mp hc with hc1 | hc2
      · have := List.find?_eq_none.mp hfs c hc1
        simpa using this
      · exact ih hpw2 r hr2 c hc2 hlt

/-- Claim C6: with `hasMelded = false` the AI lays exactly the first
combination, in the size-ascending enumeration of combinations of the
discovered melds, whose summed points reach 30 (empty when none
qualifies); hence every strictly smaller combination scores below 30. -/
theorem c6_findMeldsToLay_first_qualifying (hand : List Card) :
    findMeldsToLay hand false
        = ((orderedCombos (findMelds hand)).find? comboQualifies).getD [] ∧
      (findMeldsToLay hand false ≠ [] →
        findMeldsToLay hand false ∈ orderedCombos (findMelds hand) ∧
          30 ≤ calculateTotalMeldPoints (findMeldsToLay hand false)) ∧
      (∀ combo ∈ orderedCombos (findMelds hand),
        combo.length < (findMeldsToLay hand false).length →
          calculateTotalMeldPoints combo < 30) ∧
      (findMeldsToLay hand false = [] →
        ∀ combo ∈ orderedCombos (findMelds hand),
          calculateTotalMeldPoints combo < 30) := by
  have hmain : findMeldsToLay hand false
      = ((orderedCombos (findMelds hand)).find? comboQualifies).getD [] := by
    unfold findMeldsToLay
    by_cases hz : (findMelds hand).length = 0
    · rw [if_pos hz]
      have hnil : findMelds hand = [] := List.length_eq_zero.mp hz
      rw [hnil]
      rfl
    · rw [if_neg hz]
      show (layLoop (findMelds hand)).getD [] = _
      unfold layLoop orderedCombos
      rw [layLoopAux_eq_find?]
  refine ⟨hmain, ?_, ?_, ?_⟩
  · intro hne
    rw [hmain] at hne ⊢
    cases hf : (orderedCombos (findMelds hand)).find? comboQualifies with
    | none =>
      rw [hf] at hne
      exact absurd rfl hne
    | some r =>
      simp only [Option.getD_some]
      refine ⟨List.mem_of_find?_eq_some hf, ?_⟩
      have hp := List.find?_some hf
      exact of_decide_eq_true hp
  · intro combo hc hlt
    rw [hmain] at hlt
    cases hf : (orderedCombos (findMelds hand)).find? comboQualifies with
    | none =>
      rw [hf] at hlt
      simp at hlt
    | some r =>
      rw [hf] at hlt
      have := find?_size_ordered_minimal (fun i => getCombinations (findMelds hand) i)
        comboQualifies
        (fun k c hck => length_of_mem_getCombinations (findMelds hand) k c hck)
        (sizesAsc (findMelds hand).length) (sizesAsc_pairwise _) r hf combo hc
        (by simpa using hlt)
      have h2 : ¬ (30 ≤ calculateTotalMeldPoints combo) := by
        intro h30
        rw [show comboQualifies combo = true from decide_eq_true h30] at this
        exact Bool.noConfusion this
      omega
  · intro hnil combo hc
    rw [hmain] at hnil
    cases hf : (orderedCombos (findMelds hand)).find? comboQualifies with
    | none =>
      have := List.find?_eq_none.mp hf combo hc
      have h2 : ¬ (30 ≤ calculateTotalMeldPoints combo) := by
        intro h30
        exact this (decide_eq_true h30)
      omega
    | some r =>
      rw [hf] at hnil
      rcases List.mem_flatMap.mp (List.mem_of_find?_eq_some hf) with ⟨k, hk, hrk⟩
      have hrl := length_of_mem_getCombinations (findMelds hand) k r hrk
      rcases List.mem_map.mp hk with ⟨k0, -, rfl⟩
      simp only [Option.getD_some] at hnil
      rw [hnil] at hrl
      simp at hrl

/-- Claim C6 (witness): on the 30-point run 10-J-Q of spades the laid melds
are exactly the first qualifying combination of the enumeration. -/
theorem c6_witness :
    findMeldsToLay [card10S, cardJS, cardQS] false
      = ((orderedCombos (findMelds [card10S, cardJS, cardQS])).find?
          comboQualifies).getD [] :=
  (c6_findMeldsToLay_first_qualifying [card10S, cardJS, cardQS]).1

/-- The initial-value-free maximising `reduce` of `suggestDiscard` returns
a member of maximal value, the first such member winning ties. -/
lemma foldl_pick_max {β : Type} (val : β → Nat) :
    ∀ (l : List β) (b : β),
      (l.foldl (fun highest x => if val highest < val x then x else highest) b) ∈ b :: l
        ∧ ∀ x ∈ b :: l,
            val x ≤ val (l.foldl (fun highest x => if val highest < val x then x else highest) b)
  | [], b => ⟨List.mem_cons_self _ _, by simp⟩
  | m :: ms, b => by
    rw [List.foldl_cons]
    obtain ⟨hmem, hmax⟩ := foldl_pick_max val ms (if val b < val m then m else b)
    constructor
    · rcases List.mem_cons.mp hmem with h1 | h2
      · rw [h1]
        split
        · exact List.mem_cons_of_mem _ (List.mem_cons_self _ _)
        · exact List.mem_cons_self _ _
      · exact List.mem_cons_of_mem _ (List.mem_cons_of_mem _ h2)
    · intro x hx
      have hhead := hmax (if val b < val m then m else b) (List.mem_cons_self _ _)
      rcases List.mem_cons.mp hx with h1 | h2
      · subst h1
        refine le_trans ?_ hhead
        split
        case isTrue h => exact Nat.le_of_lt h
        case isFalse h => exact Nat.le_refl _
      · rcases List.mem_cons.mp h2 with h3 | h4
        · subst h3
          refine le_trans ?_ hhead
          split
          case isTrue h => exact Nat.le_refl _
          case isFalse h => omega
        · exact hmax x (List.mem_cons_of_mem _ h4)

/-- The initial-value-free minimising `reduce` of `suggestDiscard` returns
a member of minimal value, the first such member winning ties. -/
lemma foldl_pick_min {β : Type} (val : β → Nat) :
    ∀ (l : List β) (b : β),
      (l.foldl (fun smallest x => if val x < val smallest then x else smallest) b) ∈ b :: l
        ∧ ∀ x ∈ b :: l,
            val (l.foldl (fun smallest x => if val x < val smallest then x else smallest) b)
              ≤ val x
  | [], b => ⟨List.mem_cons_self _ _, by simp⟩
  | m :: ms, b => by
    rw [List.foldl_cons]
    obtain ⟨hmem, hmin⟩ := foldl_pick_min val ms (if val m < val b then m else b)
    constructor
    · rcases List.mem_cons.mp hmem with h1 | h2
      · rw [h1]
        split
        · exact List.mem_cons_of_mem _ (List.mem_cons_self _ _)
        · exact List.mem_cons_self _ _
      · exact List.mem_cons_of_mem _ (List.mem_cons_of_mem _ h2)
    · intro x hx
      have hhead := hmin (if val m < val b then m else b) (List.mem_cons_self _ _)
      rcases List.mem_cons.mp hx with h1 | h2
      · subst h1
        refine le_trans hhead ?_
        split
        case isTrue h => exact Nat.le_of_lt h
        case isFalse h => exact Nat.le_refl _
      · rcases List.mem_cons.mp h2 with h3 | h4
        · subst h3
          refine le_trans hhead ?_
          split
          case isTrue h => exact Nat.le_refl _
          case isFalse h => omega
        · exact hmin x (List.mem_cons_of_mem _ h4)

/-- A nonempty, fully covered hand has at least one discovered meld. -/
lemma findMelds_ne_nil_of_unmatched_nil (cards : List Card) (hne : cards ≠ [])
    (hun : unmatchedCards cards = []) : findMelds cards ≠ [] := by
  intro hmel
  match cards, hne with
  | c :: cs, _ =>
    have h1 := List.filter_eq_nil_iff.mp hun c (List.mem_cons_self _ _)
    rw [hmel] at h1
    simp [meldCardIds] at h1

/-- Both passes of `findMelds` only accept combinations drawn from the
size range `3, ..., n`, so every accepted meld has at least 3 cards. -/
lemma findMeldsPass_length_inv (valid : List Card → Bool) (mk : List Card → Meld)
    (hmk : ∀ combo, (mk combo).cards = combo) (cards : List Card)
    (st : List Meld × List Nat) (hst : ∀ m ∈ st.1, 3 ≤ m.cards.length) :
    ∀ m ∈ (findMeldsPass valid mk cards st).1, 3 ≤ m.cards.length := by
  unfold findMeldsPass
  refine foldl_preserve (fun st => ∀ m ∈ st.1, 3 ≤ m.cards.length) _ _ ?_ st hst
  intro st1 size hsize hst1
  refine foldl_preserve (fun st => ∀ m ∈ st.1, 3 ≤ m.cards.length) _ _ ?_ st1 hst1
  intro st2 combo hcombo hst2
  unfold findMeldsStep
  cases hacc : (valid combo && !hasOverlap combo st2.2) with
  | false =>
    rw [if_neg (by simp [hacc])]
    exact hst2
  | true =>
    rw [if_pos (by simp [hacc])]
    intro m hm
    rcases List.mem_append.mp hm with h1 | h2
    · exact hst2 m h1
    · have h2 : m = mk combo := by simpa using h2
      subst h2
      rw [hmk]
      have hlen := length_of_mem_getCombinations cards size combo hcombo
      have hs3 := (mem_sizesDesc hsize).1
      omega

/-- Every meld discovered by `findMelds` holds at least 3 cards. -/
lemma findMelds_meld_length (cards : List Card) :
    ∀ m ∈ findMelds cards, 3 ≤ m.cards.length := by
  unfold findMelds
  exact findMeldsPass_length_inv isValidSet mkSetMeld (fun _ => rfl) cards _
    (findMeldsPass_length_inv isValidSequence mkSequenceMeld (fun _ => rfl) cards
      ([], []) (by simp))

/-- Claim C8 (counterexample): on the hand holding a single joker the
uncovered cards are nonempty yet `suggestDiscard` returns the joker, so the
claim's "returns the highest-hand-point non-joker among them" fails. -/
theorem c8_counterexample : ¬ claimDiscardOk [joker1] := by
  intro h
  obtain ⟨c, hmem, hsome, hjok, -⟩ := h (by decide)
  have hu : unmatchedCards [joker1] = [joker1] := by decide
  rw [hu] at hmem
  have hc : c = joker1 := by simpa using hmem
  subst hc
  simp [joker1] at hjok

/-- Claim C8 as amended: for a nonempty hand, `suggestDiscard` returns the
first-maximal-hand-point non-joker among the uncovered cards when one
exists; the first uncovered card when the uncovered cards are all jokers;
and the first card of a smallest discovered meld when every card is
covered. -/
theorem c8_suggestDiscard_amended (cards : List Card) (hne : cards ≠ []) :
    ((unmatchedCards cards).filter (fun c => !c.isJoker) ≠ [] →
      ∃ c ∈ (unmatchedCards cards).filter (fun c => !c.isJoker),
        suggestDiscard cards = some c ∧
          ∀ d ∈ (unmatchedCards cards).filter (fun c => !c.isJoker),
            getCardPointValue d ≤ getCardPointValue c) ∧
    (unmatchedCards cards ≠ [] →
      (unmatchedCards cards).filter (fun c => !c.isJoker) = [] →
      suggestDiscard cards = (unmatchedCards cards).head?) ∧
    (unmatchedCards cards = [] →
      ∃ m ∈ findMelds cards,
        (∀ m2 ∈ findMelds cards, m.cards.length ≤ m2.cards.length) ∧
          suggestDiscard cards = m.cards.head?) := by
  cases hu : unmatchedCards cards with
  | cons u us =>
    refine ⟨?_, ?_, ?_⟩
    · intro hfne
      cases hf : (u :: us).filter (fun c => !c.isJoker) with
      | nil =>
        rw [hf] at hfne
        exact absurd rfl hfne
      | cons n ns =>
        have hsd : suggestDiscard cards
            = some (ns.foldl (fun highest card =>
                if getCardPointValue highest < getCardPointValue card then card
                else highest) n) := by
          unfold suggestDiscard
          rw [hu]
          show (match (u :: us).filter (fun c => !c.isJoker) with
            | n :: ns =>
              some (ns.foldl (fun highest card =>
                if getCardPointValue highest < getCardPointValue card then card
                else highest) n)
            | [] => some u) = _
          rw [hf]
        obtain ⟨hmem, hmax⟩ := foldl_pick_max getCardPointValue ns n
        exact ⟨_, hmem, hsd, hmax⟩
    · intro _ hfnil
      unfold suggestDiscard
      rw [hu]
      show (match (u :: us).filter (fun c => !c.isJoker) with
        | n :: ns =>
          some (ns.foldl (fun highest card =>
            if getCardPointValue highest < getCardPointValue card then card
            else highest) n)
        | [] => some u) = _
      rw [hfnil]
      rfl
    · intro habs
      exact absurd habs (by simp)
  | nil =>
    refine ⟨?_, ?_, ?_⟩
    · intro hfne
      exact absurd rfl hfne
    · intro hune
      exact absurd rfl hune
    · intro _
      have hmel : findMelds cards ≠ [] := findMelds_ne_nil_of_unmatched_nil cards hne hu
      cases hm : findMelds cards with
      | nil => exact absurd hm hmel
      | cons m ms =>
        have hsd : suggestDiscard cards
            = (match (ms.foldl (fun smallest meld =>
                  if meld.cards.length < smallest.cards.length then meld
                  else smallest) m).cards with
               | c :: _ => some c
               | [] => none) := by
          unfold suggestDiscard
          rw [hu, hm]
        obtain ⟨hmem, hmin⟩ := foldl_pick_min (fun meld => meld.cards.length) ms m
        refine ⟨_, hmem, fun m2 hm2 => hmin m2 hm2, ?_⟩
        have h3 : 3 ≤ (ms.foldl (fun smallest meld =>
            if meld.cards.length < smallest.cards.length then meld
            else smallest) m).cards.length := by
          refine findMelds_meld_length cards _ ?_
          rw [hm]
          exact hmem
        cases hc : (ms.foldl (fun smallest meld =>
            if meld.cards.length < smallest.cards.length then meld
            else smallest) m).cards with
        | nil =>
          rw [hc] at h3
          simp at h3
        | cons c crest =>
          rw [hsd, hc]
          rfl

/-- Claim C8 (witness): on a hand of one uncovered seven of spades the
suggestion is that seven, the maximal uncovered non-joker. -/
theorem c8_witness : suggestDiscard [card7S] = some card7S := by
  have h := (c8_suggestDiscard_amended [card7S] (by simp)).1
  have hu : unmatchedCards [card7S] = [card7S] := by decide
  rw [hu] at h
  obtain ⟨c, hmem, hsome, -⟩ := h (by decide)
  have hc : c = card7S ∧ c.isJoker = false := by simpa using hmem
  rw [hc.1] at hsome
  exact hsome

end Jolly
